import Mathlib

/-!
Shallow embedding of the blazer B2 client core: the error classifier
(base.Action), the transport wrapper (base.makeNetRequest), the deferred-hash
stream filter (base.keepFinalBytes), the large-file session bookkeeping
(base.UploadPart / base.FinishLargeFile), the session replace operation
(base.B2.Update), and the generic retry harness (retry.Do, retry.Backoff,
retry.Jitter).  Go machine integers are modeled as Int, byte buffers as
List Nat, Go maps as association lists whose order models one admissible map
iteration order, and network outcomes are passed in as explicit parameters.
-/

/-- The structured service error b2err from the base package: message,
originating method name, retry-after seconds, HTTP status code and service
message code. -/
structure B2Err where
  msg : String
  method : String
  retry : Int
  code : Int
  msgCode : String
  deriving DecidableEq

/-- The ErrAction enumeration returned by the classifier. -/
inductive ErrAction where
  | reAuthenticate
  | attemptNewUpload
  | retry
  | punt
  deriving DecidableEq

/-- A Go error value as observed by makeNetRequest and Action: the two
context errors, an x509 unknown-authority failure (wrapped = true models a
tls.CertificateVerificationError wrapping one, detected via errors.As),
a structured b2err, or any other transport error carrying its message. -/
inductive GoError where
  | canceled
  | deadlineExceeded
  | certUnknownAuthority (wrapped : Bool)
  | b2 (e : B2Err)
  | other (msg : String)
  deriving DecidableEq

/-- The Error() string of the error values above; for b2err this is
b2err.Error from the base package. -/
def errMsg : GoError → String
  | .canceled => "context canceled"
  | .deadlineExceeded => "context deadline exceeded"
  | .certUnknownAuthority _ => "x509: certificate signed by unknown authority"
  | .b2 e =>
    if e.method = "" then "b2 error: " ++ e.msg
    else e.method ++ ": " ++ toString e.code ++ ": " ++ e.msg
  | .other m => m

/-- The body of Action for a structured b2err, exactly the source's rule
order: positive retry-after first, then the 5xx-upload rule, then the
status switch. -/
def classifyServiceError (e : B2Err) : ErrAction :=
  if e.retry > 0 then .retry
    else if 500 ≤ e.code ∧ e.code < 600 ∧
        (e.method = "b2_upload_file" ∨ e.method = "b2_upload_part") then
      .attemptNewUpload
    else if e.code = 401 then
      if e.method = "b2_authorize_account" then .punt
      else if e.method = "b2_upload_file" ∨ e.method = "b2_upload_part" then
        .attemptNewUpload
      else .reAuthenticate
    else if e.code = 400 then
      if e.method = "b2_upload_file" ∧
          e.msg.startsWith "more than one upload using auth token" then
        .attemptNewUpload
      else .punt
    else if e.code = 408 then .attemptNewUpload
    else if e.code = 429 ∨ e.code = 500 ∨ e.code = 503 then .retry
    else .punt

/-- Action from the base package: the classifier from an observed error to a
recommended course of action.  A non-b2err error classifies as Punt. -/
def b2Action (err : GoError) : ErrAction :=
  match err with
  | .b2 e => classifyServiceError e
  | _ => .punt

/-- The part of an http.Response that the embedded code observes. -/
structure HttpResponse where
  statusCode : Int
  deriving DecidableEq

/-- makeNetRequest from the base package, applied to the round trip's
outcome: a successful response passes through; context cancellation and
deadline errors are returned as-is; an x509 unknown-authority failure
(matched directly by the type switch or through errors.As) is returned
as-is; every other round-trip error is wrapped as a b2err with retry = 1. -/
def makeNetRequest (result : Except GoError HttpResponse) :
    Except GoError HttpResponse :=
  match result with
  | .ok resp => .ok resp
  | .error e =>
    match e with
    | .canceled => .error .canceled
    | .deadlineExceeded => .error .deadlineExceeded
    | .certUnknownAuthority w => .error (.certUnknownAuthority w)
    | e => .error (.b2 { msg := errMsg e, method := "", retry := 1, code := 0, msgCode := "" })

/-- retry.Jitter, with float64 arithmetic modeled over the rationals and
rand.Float64() passed in as the parameter u (u ranges over [0,1)).
Durations are rationals denominated in nanoseconds, as Go time.Duration. -/
def Jitter (u : ℚ) (d : ℚ) : ℚ :=
  d / 50 + d / 50 * (u - 1 / 2)

/-- retry.Backoff: 30 seconds is 30e9 nanoseconds. -/
def Backoff (u : ℚ) (d : ℚ) : ℚ :=
  if d > 30 * 1000000000 then 30 * 1000000000 + Jitter u d
  else d * 2 + Jitter u (d * 2)

/-- The pre-jitter base value that Backoff adds jitter onto. -/
def backoffBase (d : ℚ) : ℚ :=
  if d > 30 * 1000000000 then 30 * 1000000000 else d * 2

/-- The argument Backoff passes to Jitter. -/
def jitterArg (d : ℚ) : ℚ :=
  if d > 30 * 1000000000 then d else d * 2

/-- retry.Config: attempt and delay budgets plus the dynamic and hook
functions.  onRetry returning some e models the Go hook returning a non-nil
error; operation errors are modeled as strings. -/
structure RetryConfig where
  attempts : Nat
  delay : Int
  dynamicAttempts : Nat → Nat → String → Nat
  dynamicDelay : Nat → Int → String → Int
  onRetry : Nat → String → Option String
  retryIf : Nat → String → Bool

/-- newDefaultRetryConfig from the retry package. -/
def newDefaultRetryConfig : RetryConfig where
  attempts := 1
  delay := 0
  dynamicAttempts := fun _ attempts _ => attempts
  dynamicDelay := fun _ delay _ => delay
  onRetry := fun _ _ => none
  retryIf := fun _ _ => true

/-- Outcome of retry.Do: success, an error value returned to the caller, or
divergence (the Go loop running longer than the modeling fuel allows). -/
inductive DoOutcome where
  | ok
  | err (e : String)
  | diverge
  deriving DecidableEq

/-- The loop of retry.Do.  ops n is the error, if any, of the n-th call of
the retryable function; cancelAt n = some e models ctx.Done() winning the
select during the wait after attempt n, with ctx.Err() = e; cancelAt n =
none models the backoff timer firing first. -/
def doStep (ops : Nat → Option String) (cancelAt : Nat → Option String) :
    Nat → RetryConfig → Nat → DoOutcome
  | 0, _, _ => .diverge
  | fuel + 1, cfg, n0 =>
    let n := n0 + 1
    match ops n with
    | none => .ok
    | some e =>
      let attempts := cfg.dynamicAttempts n cfg.attempts e
      if attempts ≠ 0 ∧ attempts ≤ n then .err e
      else if cfg.retryIf n e = false then .err e
      else
        match cfg.onRetry n e with
        | some e2 => .err e2
        | none =>
          let delay := cfg.dynamicDelay n cfg.delay e
          match cancelAt n with
          | some ce => .err ce
          | none =>
            doStep ops cancelAt fuel { cfg with attempts := attempts, delay := delay } n

/-- retry.Do: returns ctx.Err() before the first attempt when the context is
already cancelled on entry (ctxErr0), and otherwise runs the loop. -/
def Do (ctxErr0 : Option String) (cfg : RetryConfig) (ops : Nat → Option String)
    (cancelAt : Nat → Option String) (fuel : Nat) : DoOutcome :=
  match ctxErr0 with
  | some e => .err e
  | none => doStep ops cancelAt fuel cfg 0

/-- The keepFinalBytes filter state: the declared number of bytes remaining
(a Go int) and the fixed 40-byte capture buffer (Go [40]byte, which is
zero-initialized). -/
structure KeepFinalBytes where
  remain : Int
  sha : List Nat

/-- Go's copy(dst[ki:ke], src[pi:pe]) described pointwise: min (ke - ki)
(pe - pi) elements are copied and dst keeps its length.  The panic-freedom
of the Go slice expressions themselves is captured separately by
kfbReadInBounds. -/
def listCopy (dst : List Nat) (ki ke : Int) (src : List Nat) (pi pe : Int) :
    List Nat :=
  (List.range dst.length).map fun (i : Nat) =>
    if ki ≤ (i : Int) ∧ (i : Int) < ki + min (ke - ki) (pe - pi) then
      src.getD (pi + ((i : Int) - ki)).toNat 0
    else dst.getD i 0

/-- keepFinalBytes.Read from the base package.  p is the chunk the wrapped
reader delivered into the caller's buffer (n = p.length bytes read); the
filter passes it through unchanged while capturing the stream's trailing
bytes.  The source writes the index clamps as an assignment guarded by an
if statement; they are max with 0 here. -/
def kfbRead (k : KeepFinalBytes) (p : List Nat) : List Nat × KeepFinalBytes :=
  let n : Int := p.length
  if k.remain - n > 40 then
    (p, { k with remain := k.remain - n })
  else
    let pi := max (-40 + k.remain) 0
    let pe := n
    let ki := max (40 - k.remain) 0
    let ke := n - k.remain + 40
    (p, { remain := k.remain - n, sha := listCopy k.sha ki ke p pi pe })

/-- Folding keepFinalBytes.Read over a sequence of delivered chunks. -/
def kfbRun (k : KeepFinalBytes) (chunks : List (List Nat)) : KeepFinalBytes :=
  chunks.foldl (fun s c => (kfbRead s c).2) k

/-- Go slice-expression bounds for the copy performed by one call of
keepFinalBytes.Read: sha[ki:ke] needs 0 ≤ ki ≤ ke ≤ 40 and p[pi:pe] needs
0 ≤ pi ≤ pe ≤ n (n bytes were delivered, so pe = n is within the caller's
buffer).  The fast path performs no slicing. -/
def kfbReadInBounds (k : KeepFinalBytes) (p : List Nat) : Bool :=
  let n : Int := p.length
  if k.remain - n > 40 then true
  else
    let pi := max (-40 + k.remain) 0
    let ki := max (40 - k.remain) 0
    let ke := n - k.remain + 40
    decide (0 ≤ ki) && decide (ki ≤ ke) && decide (ke ≤ 40) &&
      decide (0 ≤ pi) && decide (pi ≤ n)

/-- Every read across a chunk sequence stays within Go slice bounds. -/
def kfbRunInBounds : KeepFinalBytes → List (List Nat) → Bool
  | _, [] => true
  | k, p :: rest => kfbReadInBounds k p && kfbRunInBounds (kfbRead k p).2 rest

/-- Invariant of the filter after m bytes of the stream st have been
consumed: remain counts down from the declared size, the buffer keeps its
length 40, and buffer position i holds the stream byte at position
st.length - 40 + i once that byte has been consumed, and 0 otherwise. -/
def KfbInv (st : List Nat) (m : Nat) (k : KeepFinalBytes) : Prop :=
  k.remain = (st.length : Int) - m ∧ k.sha.length = 40 ∧
    ∀ i : Nat, i < 40 →
      k.sha.getD i 0 =
        if 0 ≤ (st.length : Int) - 40 + i ∧ (st.length : Int) - 40 + i < m then
          st.getD ((st.length : Int) - 40 + i).toNat 0
        else 0

/-- The mutable bookkeeping of a LargeFile session: the running total size
and the part-number-to-SHA1 mapping, with the association list's order
modeling one admissible Go map iteration order. -/
structure LargeFileState where
  size : Int
  hashes : List (Int × String)
  deriving DecidableEq

/-- The map write hashes[index] = sha: overwrite the entry for index when
present, else add a binding. -/
def insertHash : List (Int × String) → Int → String → List (Int × String)
  | [], k, v => [(k, v)]
  | (k0, v0) :: rest, k, v =>
    if k0 = k then (k, v) :: rest else (k0, v0) :: insertHash rest k v

/-- The sentinel resolution in UploadPart: when the caller passed the
deferred-hash sentinel, the hash captured by the keepFinalBytes filter
(streamSha) replaces it after the stream has been consumed. -/
def resolveSha (sha1 streamSha : String) : String :=
  if sha1 = "hex_digits_at_end" then streamSha else sha1

/-- UploadPart from the base package, with the network outcome passed in as
netErr and the filter's captured buffer passed in as streamSha.  On a
network error it returns 0 together with that error before touching the
session; on success, under the session's mutex, it stores the resolved hash
under the part number, adds size to the running total and returns size. -/
def uploadPart (l : LargeFileState) (sha1 : String) (size index : Int)
    (streamSha : String) (netErr : Option String) :
    (Int × Option String) × LargeFileState :=
  match netErr with
  | some e => ((0, some e), l)
  | none =>
    ((size, none),
      { size := l.size + size,
        hashes := insertHash l.hashes index (resolveSha sha1 streamSha) })

/-- A sequence of successful UploadPart calls against one session; parts
lists (part number, sha1, size) in completion order. -/
def runUploads (l : LargeFileState) (parts : List (Int × String × Int)) :
    LargeFileState :=
  parts.foldl (fun s q => (uploadPart s q.2.1 q.2.2 q.1 "" none).2) l

/-- Outcome of FinishLargeFile's local assembly loop over the hash mapping:
a structured invalid-index error (raised before any network call), a Go
runtime panic for a non-positive key (indexing Hashes[k-1] with k ≤ 0), or
the dense part-hash array handed to the network request. -/
inductive FinishLocal where
  | invalidIndex (k : Int)
  | panicIndex (k : Int)
  | request (hashes : List String)
  deriving DecidableEq

/-- The loop of FinishLargeFile: for each binding (k, v) in iteration order,
fail when the dense array is shorter than k, else write v at position k-1. -/
def buildHashes : List String → List (Int × String) → FinishLocal
  | arr, [] => .request arr
  | arr, (k, v) :: rest =>
    if (arr.length : Int) < k then .invalidIndex k
    else if k ≤ 0 then .panicIndex k
    else buildHashes (arr.set (k - 1).toNat v) rest

/-- The local phase of FinishLargeFile: a dense array of len(hashes) empty
strings filled from the mapping. -/
def finishLocal (hashes : List (Int × String)) : FinishLocal :=
  buildHashes (List.replicate hashes.length "") hashes

/-- The fields of b2types.FinishLargeFileResponse that the code reads. -/
structure FinishResponse where
  name : String
  fileID : String
  timestamp : Int
  action : String
  deriving DecidableEq

/-- The File record FinishLargeFile returns; the timestamp is kept in the
B2 millisecond representation. -/
structure FileModel where
  name : String
  size : Int
  status : String
  timestamp : Int
  id : String
  deriving DecidableEq

/-- Result of FinishLargeFile: a local failure (no network call issued), a
network error, or the finished File; ok also records the dense hash array
that was sent over the wire. -/
inductive FinishResult where
  | localInvalidIndex (k : Int)
  | localPanic (k : Int)
  | netError (e : String)
  | ok (sent : List String) (f : FileModel)
  deriving DecidableEq

/-- FinishLargeFile from the base package, with the network outcome passed
in.  The local assembly runs first, under the session's mutex; only when it
succeeds is the network request issued.  On success the returned File's
Size is the session's accumulated size. -/
def finishLargeFile (l : LargeFileState) (netErr : Option String)
    (resp : FinishResponse) : FinishResult :=
  match finishLocal l.hashes with
  | .invalidIndex k => .localInvalidIndex k
  | .panicIndex k => .localPanic k
  | .request arr =>
    match netErr with
    | some e => .netError e
    | none =>
      .ok arr
        { name := resp.name, size := l.size, status := resp.action,
          timestamp := resp.timestamp, id := resp.fileID }

/-- b2Options; the http.RoundTripper is modeled by an identity token. -/
structure B2Options where
  transportId : Nat
  failSomeUploads : Bool
  expireTokens : Bool
  capExceeded : Bool
  apiBase : String
  userAgent : String
  deriving DecidableEq

/-- The B2 session handle from the base package. -/
structure B2 where
  accountID : String
  authToken : String
  apiURI : String
  s3URI : String
  downloadURI : String
  minPartSize : Int
  opts : B2Options
  bucket : String
  pfx : String
  deriving DecidableEq

/-- B2.Update from the base package: exactly the six assignments the source
performs. -/
def b2Update (b n : B2) : B2 :=
  { b with
    accountID := n.accountID,
    authToken := n.authToken,
    apiURI := n.apiURI,
    downloadURI := n.downloadURI,
    minPartSize := n.minPartSize,
    opts := n.opts }

/-- A concrete session before re-authentication, for exercising b2Update. -/
def c8Old : B2 where
  accountID := "acct-1"
  authToken := "token-old"
  apiURI := "https://api-old.example"
  s3URI := "https://s3-old.example"
  downloadURI := "https://dl-old.example"
  minPartSize := 100
  opts := { transportId := 1, failSomeUploads := false, expireTokens := false,
            capExceeded := false, apiBase := "", userAgent := "" }
  bucket := "bkt"
  pfx := "p"

/-- The fresh session produced by re-authentication, for exercising
b2Update. -/
def c8New : B2 where
  accountID := "acct-1"
  authToken := "token-new"
  apiURI := "https://api-new.example"
  s3URI := "https://s3-new.example"
  downloadURI := "https://dl-new.example"
  minPartSize := 200
  opts := { transportId := 2, failSomeUploads := false, expireTokens := false,
            capExceeded := false, apiBase := "", userAgent := "" }
  bucket := "bkt"
  pfx := "p"

/-- Concrete retry configuration for exercising retry.Do: five attempts,
defaults otherwise. -/
def c7Cfg : RetryConfig :=
  { newDefaultRetryConfig with attempts := 5 }

/-- An operation that fails on every attempt. -/
def c7Ops : Nat → Option String := fun _ => some "operation failed"

/-- A context that is cancelled during every backoff wait. -/
def c7Cancel : Nat → Option String := fun _ => some "context canceled"

/-- C2 counterexample: a b2_upload_part ServiceError with status 503 and a
positive retry-after value is classified Retry, not AttemptNewUpload — the
retry-after rule precedes the 5xx-upload rule. -/
theorem c2_counterexample :
    b2Action (.b2 { msg := "", method := "b2_upload_part", retry := 1, code := 503, msgCode := "" }) = .retry ∧
      b2Action (.b2 { msg := "", method := "b2_upload_part", retry := 1, code := 503, msgCode := "" }) ≠ .attemptNewUpload := by
  decide

/-- C2 (amended): for every upload-part/upload-file ServiceError with status
in [500, 600) and no positive retry-after value, the classifier returns
AttemptNewUpload and never Retry. -/
theorem c2_upload_5xx_attempt_new_upload (e : B2Err)
    (hm : e.method = "b2_upload_file" ∨ e.method = "b2_upload_part")
    (h5 : 500 ≤ e.code) (h6 : e.code < 600) (hr : e.retry ≤ 0) :
    b2Action (.b2 e) = .attemptNewUpload ∧ b2Action (.b2 e) ≠ .retry := by
  have h : b2Action (.b2 e) = .attemptNewUpload := by
    have hnr : ¬ e.retry > 0 := by omega
    show classifyServiceError e = .attemptNewUpload
    unfold classifyServiceError
    rw [if_neg hnr, if_pos ⟨h5, h6, hm⟩]
  refine ⟨h, ?_⟩
  rw [h]
  decide

/-- C2 witness: the amended theorem at a concrete 500-status upload error. -/
theorem c2_witness :
    b2Action (.b2 { msg := "boom", method := "b2_upload_part", retry := 0, code := 500, msgCode := "" }) = .attemptNewUpload ∧
      b2Action (.b2 { msg := "boom", method := "b2_upload_part", retry := 0, code := 500, msgCode := "" }) ≠ .retry :=
  c2_upload_5xx_attempt_new_upload
    { msg := "boom", method := "b2_upload_part", retry := 0, code := 500, msgCode := "" }
    (Or.inr rfl) (by decide) (by decide) (by decide)

/-- C9: whenever the part-upload network request returns an error, UploadPart
returns 0 together with that error and leaves the session state completely
unchanged — no hash entry is written and the running size total is not
incremented. -/
theorem c9_upload_part_error_atomic (l : LargeFileState) (sha1 : String)
    (size index : Int) (streamSha : String) (e : String) :
    uploadPart l sha1 size index streamSha (some e) = ((0, some e), l) := rfl

/-- C8 (code bug): b2Update replaces accountID, authToken, apiURI,
downloadURI, minPartSize and opts with the new session's values, but leaves
s3URI untouched, so the stale S3 URI survives the supposedly full in-place
replacement. -/
theorem c8_update_omits_s3URI :
    (b2Update c8Old c8New).s3URI = c8Old.s3URI ∧
      c8Old.s3URI ≠ c8New.s3URI ∧
      (b2Update c8Old c8New).accountID = c8New.accountID ∧
      (b2Update c8Old c8New).authToken = c8New.authToken ∧
      (b2Update c8Old c8New).apiURI = c8New.apiURI ∧
      (b2Update c8Old c8New).downloadURI = c8New.downloadURI ∧
      (b2Update c8Old c8New).minPartSize = c8New.minPartSize ∧
      (b2Update c8Old c8New).opts = c8New.opts := by
  decide

/-- C6: transport failures from the round trip are handled as follows: a
context cancellation or deadline error is returned as-is (never wrapped as
retryable); an x509 unknown-authority failure, direct or wrapped, is
returned as-is and classifies as Punt; every other error is wrapped as a
b2err with retry = 1, which the classifier sends to Retry. -/
theorem c6_transport_error_classification :
    makeNetRequest (.error .canceled) = .error .canceled ∧
      makeNetRequest (.error .deadlineExceeded) = .error .deadlineExceeded ∧
      (∀ w : Bool,
        makeNetRequest (.error (.certUnknownAuthority w)) = .error (.certUnknownAuthority w) ∧
          b2Action (.certUnknownAuthority w) = .punt) ∧
      (∀ m : String,
        makeNetRequest (.error (.other m)) =
            .error (.b2 { msg := m, method := "", retry := 1, code := 0, msgCode := "" }) ∧
          b2Action (.b2 { msg := m, method := "", retry := 1, code := 0, msgCode := "" }) = .retry) ∧
      (∀ e : B2Err,
        makeNetRequest (.error (.b2 e)) =
          .error (.b2 { msg := errMsg (.b2 e), method := "", retry := 1, code := 0, msgCode := "" })) ∧
      (∀ r : HttpResponse, makeNetRequest (.ok r) = .ok r) :=
  ⟨rfl, rfl, fun _ => ⟨rfl, rfl⟩, fun _ => ⟨rfl, rfl⟩, fun _ => rfl, fun _ => rfl⟩

/-- When some binding's key exceeds the dense array length, the assembly
loop fails with the first such key in iteration order, provided all keys
are at least 1 (part numbers are 1-based). -/
theorem buildHashes_firstInvalid (entries : List (Int × String)) (arr : List String)
    (hpos : ∀ q ∈ entries, 1 ≤ q.1)
    (hbig : ∃ q ∈ entries, (arr.length : Int) < q.1) :
    ∃ k, (entries.map Prod.fst).find? (fun x => decide ((arr.length : Int) < x)) = some k ∧
      buildHashes arr entries = .invalidIndex k := by
  induction entries generalizing arr with
  | nil => simp at hbig
  | cons q rest ih =>
    obtain ⟨k0, v⟩ := q
    by_cases hk : (arr.length : Int) < k0
    · exact ⟨k0, by simp [List.find?, hk], by simp [buildHashes, hk]⟩
    · have hk1 : 1 ≤ k0 := hpos (k0, v) (by simp)
      have hbig2 : ∃ q ∈ rest, ((arr.set (k0 - 1).toNat v).length : Int) < q.1 := by
        simp only [List.length_set]
        obtain ⟨q, hq, hqk⟩ := hbig
        rcases List.mem_cons.1 hq with hq | hq
        · rw [hq] at hqk
          exact absurd hqk hk
        · exact ⟨q, hq, hqk⟩
      obtain ⟨k, hfind, hbuild⟩ := ih (arr.set (k0 - 1).toNat v)
        (fun q hq => hpos q (List.mem_cons_of_mem _ hq)) hbig2
      simp only [List.length_set] at hfind
      refine ⟨k, ?_, ?_⟩
      · simpa [List.find?, hk] using hfind
      · have hred : buildHashes arr ((k0, v) :: rest) =
            if (arr.length : Int) < k0 then .invalidIndex k0
            else if k0 ≤ 0 then .panicIndex k0
            else buildHashes (arr.set (k0 - 1).toNat v) rest := rfl
        rw [hred, if_neg hk, if_neg (by omega : ¬ k0 ≤ 0)]
        exact hbuild

/-- Pigeonhole: a duplicate-free list of integers, each between 1 and the
list's length, is a permutation of 1..length. -/
theorem keys_perm_of_bounded_nodup (keys : List Int)
    (hnodup : keys.Nodup)
    (hmem : ∀ k ∈ keys, 1 ≤ k ∧ k ≤ (keys.length : Int)) :
    keys.Perm ((List.range keys.length).map fun (i : Nat) => (i : Int) + 1) := by
  have hsub : keys ⊆ (List.range keys.length).map fun (i : Nat) => (i : Int) + 1 := by
    intro k hk
    obtain ⟨h1, h2⟩ := hmem k hk
    exact List.mem_map.2 ⟨(k - 1).toNat, List.mem_range.2 (by omega), by omega⟩
  have hsp := List.subperm_of_subset hnodup hsub
  exact hsp.perm_of_length_le (by simp)

/-- C1 counterexample: finishing with hash mapping 1 ↦ a, 2 ↦ b, 4 ↦ c fails
locally, but the structured error names part 4, not part 3. -/
theorem c1_counterexample :
    finishLargeFile { size := 30, hashes := [(1, "a"), (2, "b"), (4, "c")] } none
        { name := "f", fileID := "id", timestamp := 0, action := "upload" } = .localInvalidIndex 4 ∧
      ¬ finishLargeFile { size := 30, hashes := [(1, "a"), (2, "b"), (4, "c")] } none
          { name := "f", fileID := "id", timestamp := 0, action := "upload" } = .localInvalidIndex 3 := by
  decide

/-- C1 (amended): for every session whose hash mapping has 1-based,
duplicate-free keys whose key set is not exactly 1..N (N the number of
entries), FinishLargeFile fails before the network call — for every network
outcome and response — with a structured error naming the first key in
iteration order that exceeds N (not necessarily the first missing index). -/
theorem c1_finish_gap_fails_locally (l : LargeFileState) (netErr : Option String)
    (resp : FinishResponse)
    (hpos : ∀ q ∈ l.hashes, 1 ≤ q.1)
    (hnodup : (l.hashes.map Prod.fst).Nodup)
    (hgap : ¬ (l.hashes.map Prod.fst).Perm
        ((List.range l.hashes.length).map fun (i : Nat) => (i : Int) + 1)) :
    ∃ k, (l.hashes.map Prod.fst).find?
          (fun x => decide ((l.hashes.length : Int) < x)) = some k ∧
      finishLargeFile l netErr resp = .localInvalidIndex k := by
  have hbig : ∃ q ∈ l.hashes, (l.hashes.length : Int) < q.1 := by
    by_contra hno
    push_neg at hno
    apply hgap
    have hperm := keys_perm_of_bounded_nodup (l.hashes.map Prod.fst) hnodup
      (by
        intro k hk
        obtain ⟨q, hq, hqe⟩ := List.mem_map.1 hk
        subst hqe
        refine ⟨hpos q hq, ?_⟩
        simpa using hno q hq)
    simpa using hperm
  obtain ⟨k, hfind, hbuild⟩ := buildHashes_firstInvalid l.hashes
    (List.replicate l.hashes.length "") hpos (by simpa using hbig)
  simp only [List.length_replicate] at hfind hbuild
  refine ⟨k, hfind, ?_⟩
  unfold finishLargeFile finishLocal
  rw [hbuild]

/-- C1 witness: the amended theorem at the mapping 1 ↦ a, 2 ↦ b, 4 ↦ c. -/
theorem c1_witness :
    ∃ k, (({ size := 30, hashes := [(1, "a"), (2, "b"), (4, "c")] } : LargeFileState).hashes.map Prod.fst).find?
          (fun x => decide (((({ size := 30, hashes := [(1, "a"), (2, "b"), (4, "c")] } : LargeFileState).hashes.length : Nat) : Int) < x)) = some k ∧
      finishLargeFile { size := 30, hashes := [(1, "a"), (2, "b"), (4, "c")] } none
          { name := "f", fileID := "id", timestamp := 0, action := "upload" } = .localInvalidIndex k :=
  c1_finish_gap_fails_locally { size := 30, hashes := [(1, "a"), (2, "b"), (4, "c")] } none
    { name := "f", fileID := "id", timestamp := 0, action := "upload" }
    (by decide) (by decide) (by decide)

/-- C5 counterexample: at input 20 seconds the pre-jitter base is 40
seconds, well over 30 seconds, and the returned value exceeds 30 seconds
plus any 3 percent jitter; at input 100 seconds the jitter is computed on
the uncapped 100-second input, so the result again exceeds the capped base
by more than 3 percent. -/
theorem c5_counterexample :
    backoffBase (20 * 1000000000) = 40 * 1000000000 ∧
      ¬ backoffBase (20 * 1000000000) ≤ 30 * 1000000000 ∧
      Backoff (1 / 2) (20 * 1000000000) = 40 * 1000000000 + 40 * 1000000000 / 50 ∧
      ¬ Backoff (1 / 2) (20 * 1000000000) ≤ 30 * 1000000000 * (103 / 100) ∧
      Backoff (1 / 2) (100 * 1000000000) = 30 * 1000000000 + 100 * 1000000000 / 50 ∧
      ¬ Backoff (1 / 2) (100 * 1000000000) ≤ 30 * 1000000000 * (103 / 100) := by
  norm_num [Backoff, backoffBase, Jitter]

/-- C5 (amended): Backoff returns a pre-jitter base plus jitter, where the
base is double the input when the input is at most 30 seconds (so the base
itself can reach up to 60 seconds) and is capped at 30 seconds only when the
input already exceeds 30 seconds; the jitter is computed on the doubled
input, respectively on the uncapped input when the cap applies, and for
u in [0,1) lies between 1 and 3 percent of that argument. -/
theorem c5_backoff_shape (u d : ℚ) (hu0 : 0 ≤ u) (hu1 : u < 1) (hd : 0 ≤ d) :
    Backoff u d = backoffBase d + Jitter u (jitterArg d) ∧
      (d ≤ 30 * 1000000000 → backoffBase d = d * 2) ∧
      (30 * 1000000000 < d → backoffBase d = 30 * 1000000000) ∧
      jitterArg d / 100 ≤ Jitter u (jitterArg d) ∧
      Jitter u (jitterArg d) ≤ 3 * jitterArg d / 100 := by
  have hja : 0 ≤ jitterArg d := by
    unfold jitterArg
    split <;> linarith
  refine ⟨?_, ?_, ?_, ?_, ?_⟩
  · unfold Backoff backoffBase jitterArg
    split_ifs <;> ring
  · intro h
    unfold backoffBase
    rw [if_neg (by linarith)]
  · intro h
    unfold backoffBase
    rw [if_pos h]
  · unfold Jitter
    nlinarith [mul_nonneg hja hu0]
  · unfold Jitter
    nlinarith [mul_nonneg hja (by linarith : (0 : ℚ) ≤ 1 - u)]

/-- C5 witness: the amended theorem at u = 1/2 and a 20-second delay. -/
theorem c5_witness :
    Backoff (1 / 2) (20 * 1000000000) =
        backoffBase (20 * 1000000000) + Jitter (1 / 2) (jitterArg (20 * 1000000000)) ∧
      ((20 * 1000000000 : ℚ) ≤ 30 * 1000000000 → backoffBase (20 * 1000000000) = 20 * 1000000000 * 2) ∧
      ((30 * 1000000000 : ℚ) < 20 * 1000000000 → backoffBase (20 * 1000000000) = 30 * 1000000000) ∧
      jitterArg (20 * 1000000000) / 100 ≤ Jitter (1 / 2) (jitterArg (20 * 1000000000)) ∧
      Jitter (1 / 2) (jitterArg (20 * 1000000000)) ≤ 3 * jitterArg (20 * 1000000000) / 100 :=
  c5_backoff_shape (1 / 2) (20 * 1000000000) (by norm_num) (by norm_num) (by norm_num)

/-- C7: retry.Do returns the context's error without consulting the
operation when the context is already cancelled on entry (the outcome does
not depend on the operation, the select oracle or the fuel); Do's loop is
doStep started at attempt counter 0; and from any loop state — any attempt
counter n0 and any current config cfg, so every between-attempts wait of
every run is covered — when attempt n0 + 1 fails and the loop proceeds to
the backoff wait, a context cancellation winning the select returns the
context's error, not the operation's error. -/
theorem c7_do_context_cancellation (e ce opE : String) (cfg : RetryConfig)
    (ops ops2 : Nat → Option String) (cancelAt cancelAt2 : Nat → Option String)
    (fuel fuel2 fuelC fuel3 n0 : Nat)
    (hop : ops (n0 + 1) = some opE)
    (hatt : ¬ (cfg.dynamicAttempts (n0 + 1) cfg.attempts opE ≠ 0 ∧
      cfg.dynamicAttempts (n0 + 1) cfg.attempts opE ≤ n0 + 1))
    (hri : cfg.retryIf (n0 + 1) opE = true)
    (hor : cfg.onRetry (n0 + 1) opE = none)
    (hca : cancelAt (n0 + 1) = some ce) :
    Do (some e) cfg ops cancelAt fuel = .err e ∧
      Do (some e) cfg ops cancelAt fuel = Do (some e) cfg ops2 cancelAt2 fuel2 ∧
      Do none cfg ops cancelAt fuelC = doStep ops cancelAt fuelC cfg 0 ∧
      doStep ops cancelAt (fuel3 + 1) cfg n0 = .err ce := by
  refine ⟨rfl, rfl, rfl, ?_⟩
  simp only [doStep, hop, hatt, hri, hor, hca, if_false]
  simp

/-- C7 witness: a run with five attempts and an always-failing operation;
the loop state at attempt counter 2, whose attempt 3 fails, hits a context
cancellation during the following (third) backoff wait. -/
theorem c7_witness :
    Do (some "parent ctx done") c7Cfg c7Ops c7Cancel 5 = .err "parent ctx done" ∧
      Do (some "parent ctx done") c7Cfg c7Ops c7Cancel 5 =
        Do (some "parent ctx done") c7Cfg (fun _ => none) (fun _ => none) 9 ∧
      Do none c7Cfg c7Ops c7Cancel 7 = doStep c7Ops c7Cancel 7 c7Cfg 0 ∧
      doStep c7Ops c7Cancel (4 + 1) c7Cfg 2 = .err "context canceled" :=
  c7_do_context_cancellation "parent ctx done" "context canceled" "operation failed"
    c7Cfg c7Ops (fun _ => none) c7Cancel (fun _ => none) 5 9 7 4 2
    rfl (by decide) rfl rfl rfl

/-- Writing a key that is not yet bound appends the binding. -/
theorem insertHash_not_mem (l : List (Int × String)) (k : Int) (v : String)
    (h : k ∉ l.map Prod.fst) : insertHash l k v = l ++ [(k, v)] := by
  induction l with
  | nil => rfl
  | cons q rest ih =>
    rw [List.map_cons, List.mem_cons] at h
    push_neg at h
    obtain ⟨h1, h2⟩ := h
    obtain ⟨k0, v0⟩ := q
    show (if k0 = k then (k, v) :: rest else (k0, v0) :: insertHash rest k v) =
      (k0, v0) :: rest ++ [(k, v)]
    rw [if_neg (Ne.symm h1), ih h2]
    rfl

/-- A fold of successful UploadPart calls with fresh, duplicate-free part
numbers appends one binding per part and adds up the part sizes. -/
theorem runUploads_eq (parts : List (Int × String × Int)) (sz : Int)
    (h : List (Int × String))
    (hdisj : ∀ q ∈ parts, q.1 ∉ h.map Prod.fst)
    (hnodup : (parts.map fun q => q.1).Nodup) :
    runUploads { size := sz, hashes := h } parts =
      { size := sz + (parts.map fun q => q.2.2).sum,
        hashes := h ++ parts.map fun q => (q.1, resolveSha q.2.1 "") } := by
  induction parts generalizing sz h with
  | nil => simp [runUploads]
  | cons q rest ih =>
    obtain ⟨k, sha, s⟩ := q
    rw [List.map_cons, List.nodup_cons] at hnodup
    obtain ⟨hknr, hnodup2⟩ := hnodup
    have hk : k ∉ h.map Prod.fst := hdisj (k, sha, s) (by simp)
    have hstep : runUploads { size := sz, hashes := h } ((k, sha, s) :: rest) =
        runUploads { size := sz + s, hashes := insertHash h k (resolveSha sha "") } rest := rfl
    rw [hstep, insertHash_not_mem h k _ hk, ih (sz + s) (h ++ [(k, resolveSha sha "")])
      (by
        intro q hq
        rw [List.map_append, List.mem_append]
        push_neg
        refine ⟨hdisj q (List.mem_cons_of_mem _ hq), ?_⟩
        simp only [List.map_cons, List.map_nil, List.mem_singleton]
        intro hc
        exact hknr (hc ▸ List.mem_map_of_mem (fun q => q.1) hq))
      hnodup2]
    simp [add_assoc]

/-- When every key is between 1 and the dense array length, the assembly
loop succeeds and hands an array to the network request. -/
theorem buildHashes_request (entries : List (Int × String)) (arr : List String)
    (hb : ∀ q ∈ entries, 1 ≤ q.1 ∧ q.1 ≤ (arr.length : Int)) :
    ∃ out, buildHashes arr entries = .request out := by
  induction entries generalizing arr with
  | nil => exact ⟨arr, rfl⟩
  | cons q rest ih =>
    obtain ⟨k, v⟩ := q
    obtain ⟨h1, h2⟩ := hb (k, v) (by simp)
    have hred : buildHashes arr ((k, v) :: rest) = buildHashes (arr.set (k - 1).toNat v) rest := by
      show (if (arr.length : Int) < k then FinishLocal.invalidIndex k
        else if k ≤ 0 then FinishLocal.panicIndex k
        else buildHashes (arr.set (k - 1).toNat v) rest) = _
      rw [if_neg (by omega), if_neg (by omega)]
    rw [hred]
    exact ih _ (fun q hq => by
      simpa [List.length_set] using hb q (List.mem_cons_of_mem _ hq))

/-- C4: after successful UploadPart calls with distinct part numbers 1..N,
in any completion order, FinishLargeFile succeeds and returns a File whose
Size is the sum of the recorded part sizes — the same File for every
permutation of the upload order. -/
theorem c4_finish_size_sum (parts parts2 : List (Int × String × Int))
    (resp : FinishResponse)
    (hperm : parts2.Perm parts)
    (hk : (parts.map fun q => q.1).Perm
        ((List.range parts.length).map fun (i : Nat) => (i : Int) + 1)) :
    ∃ arr, finishLargeFile (runUploads { size := 0, hashes := [] } parts2) none resp =
      .ok arr { name := resp.name, size := (parts.map fun q => q.2.2).sum,
                status := resp.action, timestamp := resp.timestamp, id := resp.fileID } := by
  have hlen : parts2.length = parts.length := hperm.length_eq
  have hk2 : (parts2.map fun q => q.1).Perm
      ((List.range parts.length).map fun (i : Nat) => (i : Int) + 1) :=
    (hperm.map fun q => q.1).trans hk
  have hinj : Function.Injective fun (i : Nat) => (i : Int) + 1 := by
    intro a b hab
    have hab2 : (a : Int) = b := by simpa using hab
    exact_mod_cast hab2
  have hcanon : ((List.range parts.length).map fun (i : Nat) => (i : Int) + 1).Nodup :=
    (List.nodup_range parts.length).map hinj
  have hnodup2 : (parts2.map fun q => q.1).Nodup := hk2.symm.nodup hcanon
  have hbounds : ∀ k ∈ parts2.map (fun q => q.1), 1 ≤ k ∧ k ≤ (parts.length : Int) := by
    intro k hkm
    have := hk2.subset hkm
    obtain ⟨i, hi, hie⟩ := List.mem_map.1 this
    rw [List.mem_range] at hi
    omega
  rw [runUploads_eq parts2 0 []
    (by intro q hq; simp)
    hnodup2]
  obtain ⟨out, hout⟩ := buildHashes_request
    (parts2.map fun q => (q.1, resolveSha q.2.1 "")) (List.replicate (parts2.map fun (q : Int × String × Int) => (q.1, resolveSha q.2.1 "")).length "")
    (by
      intro q hq
      obtain ⟨p, hp, hpe⟩ := List.mem_map.1 hq
      subst hpe
      have := hbounds p.1 (List.mem_map_of_mem (fun q => q.1) hp)
      simp only [List.length_replicate, List.nil_append, List.length_map]
      exact ⟨this.1, by rw [hlen]; exact this.2⟩)
  refine ⟨out, ?_⟩
  unfold finishLargeFile finishLocal
  simp only [List.nil_append] at hout ⊢
  rw [hout]
  have hsum : (parts2.map fun q => q.2.2).sum = (parts.map fun q => q.2.2).sum :=
    (hperm.map fun q => q.2.2).sum_eq
  rw [hsum]
  simp

/-- C4 witness: three parts of sizes 10, 20, 30 uploaded in the order
2, 3, 1 finish with total size 60. -/
theorem c4_witness :
    ∃ arr, finishLargeFile (runUploads { size := 0, hashes := [] }
        [(2, "b", 20), (3, "c", 30), (1, "a", 10)]) none
        { name := "big", fileID := "fid", timestamp := 5, action := "upload" } =
      .ok arr { name := "big",
                size := ([(1, "a", 10), (2, "b", 20), (3, "c", 30)].map
                  fun (q : Int × String × Int) => q.2.2).sum,
                status := "upload", timestamp := 5, id := "fid" } :=
  c4_finish_size_sum [(1, "a", 10), (2, "b", 20), (3, "c", 30)]
    [(2, "b", 20), (3, "c", 30), (1, "a", 10)]
    { name := "big", fileID := "fid", timestamp := 5, action := "upload" }
    (by decide) (by decide)

/-- getD of a dropped list reads the original at the shifted index. -/
theorem list_getD_drop (l : List Nat) (i j : Nat) :
    (l.drop i).getD j 0 = l.getD (i + j) 0 := by
  rw [List.getD_eq_getElem?_getD, List.getD_eq_getElem?_getD, List.getElem?_drop]

/-- getD of an append reads the left list below its length. -/
theorem list_getD_append (p l : List Nat) (j : Nat) (h : j < p.length) :
    (p ++ l).getD j 0 = p.getD j 0 := by
  rw [List.getD_eq_getElem _ _ (by rw [List.length_append]; omega),
    List.getD_eq_getElem _ _ h, List.getElem_append_left h]

/-- Lists of equal length that agree on getD at every index are equal. -/
theorem list_ext_getD (l1 l2 : List Nat) (hlen : l1.length = l2.length)
    (h : ∀ i, i < l1.length → l1.getD i 0 = l2.getD i 0) : l1 = l2 := by
  apply List.ext_getElem hlen
  intro n h1 h2
  have hn := h n h1
  rwa [List.getD_eq_getElem _ _ h1, List.getD_eq_getElem _ _ h2] at hn

/-- listCopy keeps the destination's length. -/
theorem listCopy_length (dst src : List Nat) (ki ke pi pe : Int) :
    (listCopy dst ki ke src pi pe).length = dst.length := by
  simp [listCopy]

/-- Pointwise description of listCopy. -/
theorem listCopy_getD (dst src : List Nat) (ki ke pi pe : Int) (i : Nat)
    (h : i < dst.length) :
    (listCopy dst ki ke src pi pe).getD i 0 =
      if ki ≤ (i : Int) ∧ (i : Int) < ki + min (ke - ki) (pe - pi) then
        src.getD (pi + ((i : Int) - ki)).toNat 0
      else dst.getD i 0 := by
  have h2 : i < (listCopy dst ki ke src pi pe).length := by
    rw [listCopy_length]
    exact h
  rw [List.getD_eq_getElem _ _ h2]
  simp [listCopy]

/-- One read preserves the capture invariant and stays within Go slice
bounds, when the delivered chunk is the next slice of the stream. -/
theorem kfbRead_step (st : List Nat) (m : Nat) (p : List Nat) (k : KeepFinalBytes)
    (hinv : KfbInv st m k) (hmn : m + p.length ≤ st.length)
    (hp : ∀ j : Nat, j < p.length → p.getD j 0 = st.getD (m + j) 0) :
    KfbInv st (m + p.length) (kfbRead k p).2 ∧ kfbReadInBounds k p = true := by
  obtain ⟨hrem, hlen, hspec⟩ := hinv
  by_cases hfast : k.remain - (p.length : Int) > 40
  · have h2 : (kfbRead k p).2 = { k with remain := k.remain - (p.length : Int) } := by
      simp [kfbRead, hfast]
    refine ⟨⟨?_, ?_, ?_⟩, by simp [kfbReadInBounds, hfast]⟩
    · rw [h2]
      dsimp only
      omega
    · rw [h2]
      exact hlen
    · intro i hi
      rw [h2]
      dsimp only
      rw [hspec i hi]
      split_ifs <;> first | rfl | (exfalso; omega)
  · have h2 : (kfbRead k p).2 =
        { remain := k.remain - (p.length : Int),
          sha := listCopy k.sha (max (40 - k.remain) 0)
            ((p.length : Int) - k.remain + 40) p (max (-40 + k.remain) 0)
            (p.length : Int) } := by
      simp [kfbRead, hfast]
    refine ⟨⟨?_, ?_, ?_⟩, ?_⟩
    · rw [h2]
      dsimp only
      omega
    · rw [h2]
      dsimp only
      rw [listCopy_length]
      exact hlen
    · intro i hi
      rw [h2]
      dsimp only
      rw [listCopy_getD _ _ _ _ _ _ i (by rw [hlen]; exact hi), hspec i hi]
      split_ifs <;>
        first
          | rfl
          | (exfalso; omega)
          | (rw [hp _ (by omega)]; congr 1; omega)
    · simp only [kfbReadInBounds, Bool.and_eq_true, decide_eq_true_eq]
      rw [if_neg hfast]
      simp only [Bool.and_eq_true, decide_eq_true_eq]
      refine ⟨⟨⟨⟨?_, ?_⟩, ?_⟩, ?_⟩, ?_⟩ <;> omega

/-- Folding the filter over the rest of the stream carries the capture
invariant to the end of the stream, in bounds throughout. -/
theorem kfbRun_inv (rest : List (List Nat)) (st : List Nat) (m : Nat) (k : KeepFinalBytes)
    (hflat : rest.flatten = st.drop m) (hm : m ≤ st.length) (hinv : KfbInv st m k) :
    KfbInv st st.length (kfbRun k rest) ∧ kfbRunInBounds k rest = true := by
  induction rest generalizing m k with
  | nil =>
    have hl := congrArg List.length hflat
    simp only [List.flatten_nil, List.length_nil, List.length_drop] at hl
    have hmeq : m = st.length := by omega
    subst hmeq
    exact ⟨hinv, rfl⟩
  | cons p rest2 ih =>
    have hflat2 : p ++ rest2.flatten = st.drop m := by simpa using hflat
    have hlf := congrArg List.length hflat2
    simp only [List.length_append, List.length_drop] at hlf
    have hmn : m + p.length ≤ st.length := by omega
    have hp : ∀ j : Nat, j < p.length → p.getD j 0 = st.getD (m + j) 0 := by
      intro j hj
      have h1 : (st.drop m).getD j 0 = p.getD j 0 := by
        rw [← hflat2]
        exact list_getD_append p _ j hj
      rw [← h1, list_getD_drop]
    obtain ⟨hinv2, hbound⟩ := kfbRead_step st m p k hinv hmn hp
    have hflat3 : rest2.flatten = st.drop (m + p.length) := by
      rw [← List.drop_drop, ← hflat2, List.drop_left]
    obtain ⟨hinv3, hbound3⟩ := ih (m + p.length) (kfbRead k p).2 hflat3 (by omega) hinv2
    refine ⟨hinv3, ?_⟩
    show (kfbReadInBounds k p && kfbRunInBounds (kfbRead k p).2 rest2) = true
    rw [hbound, hbound3]
    rfl

/-- Bounds safety alone needs only that the reader never delivers more
bytes in total than the remaining count the filter was initialized with. -/
theorem kfbRunInBounds_of_le (chunks : List (List Nat)) (k : KeepFinalBytes)
    (h : (chunks.flatten.length : Int) ≤ k.remain) :
    kfbRunInBounds k chunks = true := by
  induction chunks generalizing k with
  | nil => rfl
  | cons p rest ih =>
    simp only [List.flatten_cons, List.length_append, Nat.cast_add] at h
    have hrem2 : (kfbRead k p).2.remain = k.remain - (p.length : Int) := by
      by_cases hfast : k.remain - (p.length : Int) > 40 <;> simp [kfbRead, hfast]
    show (kfbReadInBounds k p && kfbRunInBounds (kfbRead k p).2 rest) = true
    rw [Bool.and_eq_true]
    constructor
    · by_cases hfast : k.remain - (p.length : Int) > 40
      · simp [kfbReadInBounds, hfast]
      · simp only [kfbReadInBounds, if_neg hfast, Bool.and_eq_true, decide_eq_true_eq]
        refine ⟨⟨⟨⟨?_, ?_⟩, ?_⟩, ?_⟩, ?_⟩ <;> omega
    · apply ih
      rw [hrem2]
      omega

/-- C10: under the size precondition — the wrapped reader never delivers
more bytes in total than the declared remaining count — every copy
performed by keepFinalBytes.Read stays within the bounds of the 40-byte
buffer and the delivered chunk: all slice indices ki, ke, pi, pe are in
range at every step. -/
theorem c10_kfb_in_bounds (chunks : List (List Nat)) (R : Nat)
    (h : chunks.flatten.length ≤ R) :
    kfbRunInBounds { remain := (R : Int), sha := List.replicate 40 0 } chunks = true :=
  kfbRunInBounds_of_le chunks { remain := (R : Int), sha := List.replicate 40 0 }
    (by
      show (chunks.flatten.length : Int) ≤ ((R : Nat) : Int)
      exact_mod_cast h)

/-- C10 witness: two chunks of five total bytes against a declared size of
ten. -/
theorem c10_witness :
    kfbRunInBounds { remain := ((10 : Nat) : Int), sha := List.replicate 40 0 }
      [[1, 2, 3], [4, 5]] = true :=
  c10_kfb_in_bounds [[1, 2, 3], [4, 5]] 10 (by decide)

/-- C3: for every stream (of any length, fed in chunks of any sizes) whose
total length equals the declared size the filter was initialized with, the
filter passes every read through unchanged, every access is in bounds, and
after the stream is consumed the trailing part of the 40-byte buffer holds
exactly the stream's final min(40, length) bytes — the whole final 40 bytes
when the stream has at least 40, and all available bytes when shorter. -/
theorem c3_deferred_hash_filter (chunks : List (List Nat)) :
    (∀ (k : KeepFinalBytes) (p : List Nat), (kfbRead k p).1 = p) ∧
      kfbRunInBounds { remain := (chunks.flatten.length : Int), sha := List.replicate 40 0 }
        chunks = true ∧
      (kfbRun { remain := (chunks.flatten.length : Int), sha := List.replicate 40 0 }
            chunks).sha.drop (40 - min 40 chunks.flatten.length) =
        chunks.flatten.drop (chunks.flatten.length - min 40 chunks.flatten.length) := by
  refine ⟨?_, kfbRunInBounds_of_le chunks _ (by simp), ?_⟩
  · intro k p
    by_cases hfast : k.remain - (p.length : Int) > 40 <;> simp [kfbRead, hfast]
  · have hinv0 : KfbInv chunks.flatten 0
        { remain := (chunks.flatten.length : Int), sha := List.replicate 40 0 } := by
      refine ⟨by simp, by simp, ?_⟩
      intro i hi
      rw [if_neg (by omega)]
      rw [List.getD_eq_getElem _ _ (by simpa using hi :
        i < (List.replicate 40 (0 : Nat)).length)]
      exact List.getElem_replicate _ _
    obtain ⟨hinvN, _⟩ := kfbRun_inv chunks chunks.flatten 0
      { remain := (chunks.flatten.length : Int), sha := List.replicate 40 0 }
      (by rw [List.drop_zero]) (Nat.zero_le _) hinv0
    obtain ⟨hrem, hlen, hspec⟩ := hinvN
    apply list_ext_getD
    · rw [List.length_drop, hlen, List.length_drop]
      omega
    · intro j hj
      rw [List.length_drop, hlen] at hj
      rw [list_getD_drop, list_getD_drop]
      rw [hspec (40 - min 40 chunks.flatten.length + j) (by omega),
        if_pos (by omega)]
      congr 1
      omega
